import Mathlib

/-!
Verification development for the terminal progress-spinner and argument
parser of a small Node.js CLI template (source: `src/helpers.ts`).

The TypeScript code is shallowly embedded: JavaScript strings become
`List Char`, JavaScript numbers become an explicit `JSNum` type with a
NaN value, the regular expressions of the source are translated into
executable scanning functions, and the event-driven spinner is modelled
as a state machine driven by an explicit schedule of events.
-/

namespace Cli

abbrev Chars := List Char

/-- Decimal digit class, the `\d` of the source's regular expressions. -/
def isDigitC (c : Char) : Bool := 48 ≤ c.toNat && c.toNat ≤ 57

/-- Word-character class, the `\w` of the source's regular expressions. -/
def isWordChar (c : Char) : Bool :=
  (48 ≤ c.toNat && c.toNat ≤ 57) || (65 ≤ c.toNat && c.toNat ≤ 90) ||
  (97 ≤ c.toNat && c.toNat ≤ 122) || c.toNat = 95

/-- JavaScript line terminators (the characters `.` does not match). -/
def isLineTerm (c : Char) : Bool :=
  c.toNat = 10 || c.toNat = 13 || c.toNat = 8232 || c.toNat = 8233

/-- JavaScript whitespace as trimmed by `ToNumber` (WhiteSpace and
LineTerminator code points). -/
def isJsSpace (c : Char) : Bool :=
  let n := c.toNat
  n = 9 || n = 10 || n = 11 || n = 12 || n = 13 || n = 32 || n = 160 ||
  n = 5760 || (8192 ≤ n && n ≤ 8202) || n = 8232 || n = 8233 ||
  n = 8239 || n = 8287 || n = 12288 || n = 65279

/-- A JavaScript number as far as this code can observe it: NaN, a
finite value `val m e` denoting the exact value `m * 10 ^ e` (the
claims only ever touch small integers, where this agrees with IEEE
doubles; the code never compares or re-reads these numbers, so the
non-canonical exponent is unobservable), or an infinity. -/
inductive JSNum where
  | nan : JSNum
  | val : Int → Int → JSNum
  | inf : Bool → JSNum
deriving DecidableEq

/-- Value of a list of decimal digits (most significant first). -/
def decVal (ds : Chars) : Nat := ds.foldl (fun a d => a * 10 + (d.toNat - 48)) 0

/-- Value of one hexadecimal digit. -/
def hexDigVal (c : Char) : Nat :=
  if c.toNat ≤ 57 then c.toNat - 48
  else if c.toNat ≤ 90 then c.toNat - 55
  else c.toNat - 87

def isHexDigit (c : Char) : Bool :=
  (48 ≤ c.toNat && c.toNat ≤ 57) || (65 ≤ c.toNat && c.toNat ≤ 70) ||
  (97 ≤ c.toNat && c.toNat ≤ 102)

def isOctDigit (c : Char) : Bool := 48 ≤ c.toNat && c.toNat ≤ 55

def isBinDigit (c : Char) : Bool := c.toNat = 48 || c.toNat = 49

def baseVal (b : Nat) (ds : Chars) : Nat := ds.foldl (fun a d => a * b + hexDigVal d) 0

/-- Trim JavaScript whitespace from both ends of a string. -/
def trimJS (s : Chars) : Chars :=
  ((s.dropWhile isJsSpace).reverse.dropWhile isJsSpace).reverse

/-- Exponent part of a JavaScript decimal literal: empty, or
`e`/`E` followed by an optionally signed nonempty digit run. -/
def expPart (s : Chars) : Option Int :=
  match s with
  | [] => some 0
  | c :: r =>
    if c = 'e' ∨ c = 'E' then
      match r with
      | '+' :: d => if d ≠ [] ∧ d.all isDigitC then some (decVal d) else none
      | '-' :: d => if d ≠ [] ∧ d.all isDigitC then some (-(decVal d : Int)) else none
      | d => if d ≠ [] ∧ d.all isDigitC then some (decVal d) else none
    else none

/-- Unsigned decimal literal of the `ToNumber` grammar
(`Digits [. Digits] [Exp]` or `. Digits [Exp]`), consuming the whole
string; the result is a mantissa-exponent pair denoting `m * 10 ^ e`. -/
def parseUDec (t : Chars) : Option (Int × Int) :=
  let ip := t.takeWhile isDigitC
  let r1 := t.dropWhile isDigitC
  match r1 with
  | '.' :: r2 =>
    let fp := r2.takeWhile isDigitC
    let r3 := r2.dropWhile isDigitC
    if ip = [] ∧ fp = [] then none
    else
      match expPart r3 with
      | some e => some ((decVal ip * 10 ^ fp.length + decVal fp : Nat), e - fp.length)
      | none => none
  | _ =>
    if ip = [] then none
    else
      match expPart r1 with
      | some e => some ((decVal ip : Nat), e)
      | none => none

/-- Non-decimal integer literals of the `ToNumber` grammar
(`0x`, `0o`, `0b`, no sign allowed). -/
def parseNonDec (t : Chars) : Option Int :=
  match t with
  | c0 :: c1 :: rest =>
    if c0 = '0' then
      if c1 = 'x' ∨ c1 = 'X' then
        if rest ≠ [] ∧ rest.all isHexDigit then some (baseVal 16 rest) else none
      else if c1 = 'o' ∨ c1 = 'O' then
        if rest ≠ [] ∧ rest.all isOctDigit then some (baseVal 8 rest) else none
      else if c1 = 'b' ∨ c1 = 'B' then
        if rest ≠ [] ∧ rest.all isBinDigit then some (baseVal 2 rest) else none
      else none
    else none
  | _ => none

/-- Strip one leading sign, returning the sign factor and the rest. -/
def splitSign (t : Chars) : Int × Chars :=
  match t with
  | c :: r => if c = '+' then (1, r) else if c = '-' then (-1, r) else (1, t)
  | [] => (1, [])

/-- JavaScript string-to-number conversion (the unary `+` of the
source), following the `StringNumericLiteral` grammar. -/
def jsToNumber (s : Chars) : JSNum :=
  let t := trimJS s
  if t.isEmpty then .val 0 0
  else
    match parseNonDec t with
    | some m => .val m 0
    | none =>
      let sg := (splitSign t).1
      let u := (splitSign t).2
      if u = "Infinity".data then .inf (sg < 0)
      else
        match parseUDec u with
        | some me => .val (sg * me.1) me.2
        | none => .nan

/-- JavaScript truthiness of a number (`m * 10 ^ e` is zero exactly
when the mantissa is zero). -/
def jsNumFalsy : JSNum → Bool
  | .nan => true
  | .val m _ => m = 0
  | .inf _ => false

def hexDig (n : Nat) : Char := "0123456789abcdef".data.getD n '0'

def hex4 (n : Nat) : Chars :=
  [hexDig (n / 4096 % 16), hexDig (n / 256 % 16), hexDig (n / 16 % 16), hexDig (n % 16)]

/-- Escaping of one character by `JSON.stringify`. -/
def escapeChar (c : Char) : Chars :=
  if c = '"' then ['\\', '"']
  else if c = '\\' then ['\\', '\\']
  else if c.toNat = 8 then ['\\', 'b']
  else if c.toNat = 9 then ['\\', 't']
  else if c.toNat = 10 then ['\\', 'n']
  else if c.toNat = 12 then ['\\', 'f']
  else if c.toNat = 13 then ['\\', 'r']
  else if c.toNat < 32 ∨ c.toNat = 8232 ∨ c.toNat = 8233 then '\\' :: 'u' :: hex4 c.toNat
  else [c]

def escAll (s : Chars) : Chars := s.foldr (fun c acc => escapeChar c ++ acc) []

/-- `JSON.stringify` on a string value: double quotes around the
escaped characters. -/
def jsonStringify (s : Chars) : Chars := '"' :: (escAll s ++ ['"'])

/-- The full match of `/\[(.*)/g.exec(str)`: from the first `[` to the
end of the line (`.` does not cross line terminators). -/
def fromBracket : Chars → Option Chars
  | [] => none
  | c :: r =>
    if c = '[' then some ('[' :: r.takeWhile (fun x => !isLineTerm x))
    else fromBracket r

/-- `.replace(/\[|R"/g, '')`: delete every `[` and every `R"` pair,
scanning left to right. -/
def removeBrackets : Chars → Chars
  | [] => []
  | [c] => if c = '[' then [] else [c]
  | c :: c2 :: rest =>
    if c = '[' then removeBrackets (c2 :: rest)
    else if c = 'R' ∧ c2 = '"' then removeBrackets rest
    else c :: removeBrackets (c2 :: rest)

/-- `.split(';')` of JavaScript: always returns a nonempty list. -/
def splitSemi : Chars → List Chars
  | [] => [[]]
  | c :: rest =>
    if c = ';' then [] :: splitSemi rest
    else
      match splitSemi rest with
      | [] => [[c]]
      | h :: t => (c :: h) :: t

/-- The `xy` value of the readable handler in `start`. -/
def cursorXY (str : Chars) : Option (List Chars) :=
  (fromBracket str).map (fun m => splitSemi (removeBrackets m))

/-- The string fed to the unary `+` for the row: `xy?.[0] || '0'`
(`undefined` and the empty string both fall back to `'0'`). -/
def rowStr (xy : Option (List Chars)) : Chars :=
  match xy with
  | some (h :: _) => if h = [] then ['0'] else h
  | some [] => ['0']
  | none => ['0']

/-- The row number captured by the readable handler of `start`:
`stdin.read()` yields the buffer (or `null`), which is passed through
`JSON.stringify`, the `/\[(.*)/g` match, the `/\[|R"/g` deletion, the
`';'` split, and the unary `+`. -/
def captureRow (buf : Option Chars) : JSNum :=
  let str := match buf with
    | some b => jsonStringify b
    | none => "null".data
  jsToNumber (rowStr (cursorXY str))

/-- The fixed ordered glyph table `frames` of the source. -/
def frames : List Chars :=
  [['⠋'], ['⠙'], ['⠹'], ['⠸'], ['⠼'], ['⠴'], ['⠦'], ['⠧'], ['⠇'], ['⠏']]

/-- `chalk.cyan`: wrap in the cyan foreground ANSI codes. -/
def chalkCyan (s : Chars) : Chars := "\u001B[36m".data ++ s ++ "\u001B[39m".data

/-- `chalk.yellow`. -/
def chalkYellow (s : Chars) : Chars := "\u001B[33m".data ++ s ++ "\u001B[39m".data

/-- `chalk.green`. -/
def chalkGreen (s : Chars) : Chars := "\u001B[32m".data ++ s ++ "\u001B[39m".data

/-- `chalk.red`. -/
def chalkRed (s : Chars) : Chars := "\u001B[31m".data ++ s ++ "\u001B[39m".data

/-- Observable effects on the output stream: `process.stdout.write`,
`process.stdout.cursorTo(0, rowNumber)` (recording the row variable,
which may still be undefined), and `process.stdout.clearLine(0)`. -/
inductive OutEv where
  | write : Chars → OutEv
  | cursorTo : Option JSNum → OutEv
  | clearLine : OutEv
deriving DecidableEq

/-- One armed `setInterval` callback: its handle, the closure-local
frame counter `i`, and the captured `startMessage`. -/
structure Timer where
  tid : Nat
  i : Nat
  msg : Chars
deriving DecidableEq

/-- The live state of one spinner session (`progress` closure):
the shared `rowNumber` and `id` variables, the set of interval timers
currently armed, the registered-but-unconsumed `once('readable')`
handlers (each capturing its `startMessage`), the number of pending
auto-stop sleeps, a fresh-handle counter, and the output trace. -/
structure SpinSt where
  rowNumber : Option JSNum
  id : Option Nat
  timers : List Timer
  pending : List Chars
  sleeps : Nat
  nextT : Nat
  out : List OutEv
deriving DecidableEq

def initSt : SpinSt :=
  { rowNumber := none, id := none, timers := [], pending := [], sleeps := 0,
    nextT := 0, out := [] }

/-- `stop()`: if `id` has never been assigned, return; otherwise cancel
the interval with that handle (`clearInterval`), move the cursor to the
owned row and clear the line. `id` itself is not reset. -/
def doStop (s : SpinSt) : SpinSt :=
  match s.id with
  | none => s
  | some tid =>
    { s with timers := s.timers.filter (fun t => !(t.tid == tid)),
             out := s.out ++ [.cursorTo s.rowNumber, .clearLine] }

/-- The synchronous part of `start(startMessage, timer)`: `stop()`,
write a newline, register the one-shot readable handler, write the
cursor-position query `ESC[6n`, and if `timer` is nonzero queue the
auto-stop sleep. -/
def doStartSync (msg : Chars) (timeout : Nat) (s : SpinSt) : SpinSt :=
  { doStop s with
      out := (doStop s).out ++ [.write ['\n'], .write [Char.ofNat 27, '[', '6', 'n']],
      pending := (doStop s).pending ++ [msg],
      sleeps := if timeout ≠ 0 then (doStop s).sleeps + 1 else (doStop s).sleeps }

/-- The body of the `once('readable')` handler: parse the read buffer
(or `null` when another handler already drained the stream) into the
shared `rowNumber`, then arm the redraw interval with a fresh handle
and a frame counter starting at 0. -/
def runHandler (msg : Chars) (buf : Option Chars) (s : SpinSt) : SpinSt :=
  { s with rowNumber := some (captureRow buf),
           id := some s.nextT,
           timers := s.timers ++ [{ tid := s.nextT, i := 0, msg := msg }],
           nextT := s.nextT + 1 }

/-- A `readable` event: every registered one-shot handler runs, in
registration order; the first `read()` obtains the buffer and the
later ones obtain `null`. -/
def doReadable (buf : Option Chars) (s : SpinSt) : SpinSt :=
  match s.pending with
  | [] => s
  | m :: rest =>
    rest.foldl (fun st m2 => runHandler m2 none st) (runHandler m buf { s with pending := [] })

/-- One firing of the interval with handle `tid` (if still armed):
move the cursor to the shared `rowNumber`, clear the line, and write
the cyan frame `frames[i++ % frames.length]` and the yellow message. -/
def doTick (tid : Nat) (s : SpinSt) : SpinSt :=
  match s.timers.find? (fun t => t.tid == tid) with
  | none => s
  | some t =>
    { s with timers := s.timers.map (fun u => if u.tid == tid then { u with i := u.i + 1 } else u),
             out := s.out ++ [.cursorTo s.rowNumber, .clearLine,
               .write (chalkCyan (frames.getD (t.i % frames.length) []) ++
                 ' ' :: chalkYellow t.msg)] }

/-- Expiry of one pending auto-stop sleep: the `stop()` after
`await sleep(timer)`. -/
def doSleepFire (s : SpinSt) : SpinSt :=
  if s.sleeps ≠ 0 then doStop { s with sleeps := s.sleeps - 1 } else s

/-- `success(endMessage)`: `stop()`, then write the green
check-decorated message and a newline. -/
def doSuccess (m : Chars) (s : SpinSt) : SpinSt :=
  { doStop s with out := (doStop s).out ++ [.write (chalkGreen ("✅ ".data ++ m) ++ ['\n'])] }

/-- `error(endMessage)`: `stop()`, then write the red
stop-sign-decorated message and a newline. -/
def doError (m : Chars) (s : SpinSt) : SpinSt :=
  { doStop s with out := (doStop s).out ++ [.write (chalkRed ("⛔ ".data ++ m) ++ ['\n'])] }

/-- `log(logMessage)`: `stop()`, then write the message verbatim. -/
def doLog (m : Chars) (s : SpinSt) : SpinSt :=
  { doStop s with out := (doStop s).out ++ [.write m] }

/-- Events a schedule can deliver to a session: the five public
operations, arrival of input triggering the readable handlers, a
firing of interval `tid`, and expiry of an auto-stop sleep. -/
inductive Ev where
  | start : Chars → Nat → Ev
  | stop : Ev
  | succ : Chars → Ev
  | err : Chars → Ev
  | log : Chars → Ev
  | readable : Option Chars → Ev
  | tick : Nat → Ev
  | sleepFire : Ev
deriving DecidableEq

def stepEv : Ev → SpinSt → SpinSt
  | .start m t, s => doStartSync m t s
  | .stop, s => doStop s
  | .succ m, s => doSuccess m s
  | .err m, s => doError m s
  | .log m, s => doLog m s
  | .readable b, s => doReadable b s
  | .tick tid, s => doTick tid s
  | .sleepFire, s => doSleepFire s

def runEvs (evs : List Ev) (s : SpinSt) : SpinSt := evs.foldl (fun st e => stepEv e st) s

/-- `progress(message, autoStopTimer)`: fresh session state followed by
the implicit initial `start()`. -/
def mkProgress (message : Chars) (autoStopTimer : Nat) : SpinSt :=
  doStartSync message autoStopTimer initSt

/-- Events the environment generates by itself, with no further call
into the session: input arrival, interval firings, sleep expiries. -/
def autonomousEv : Ev → Bool
  | .readable _ => true
  | .tick _ => true
  | .sleepFire => true
  | _ => false

/-- Validity of an event against a state: the only constraint the
claims need is that a `start` call is not issued while a cursor reply
is still pending (non-overlapping starts). -/
def okEv (s : SpinSt) : Ev → Bool
  | .start _ _ => s.pending.isEmpty
  | _ => true

def okRun : SpinSt → List Ev → Bool
  | _, [] => true
  | s, e :: evs => okEv s e && okRun (stepEv e s) evs

/-- Iterated firings of interval 0 (the first timer a session arms). -/
def ticks : Nat → SpinSt → SpinSt
  | 0, s => s
  | n + 1, s => stepEv (.tick 0) (ticks n s)

/-- A well-formed cursor-position reply `ESC[12;1R`. -/
def goodReply : Chars := [Char.ofNat 27, '[', '1', '2', ';', '1', 'R']

/-- A value stored in the `parseArgs` result object. -/
inductive JsVal where
  | bool : Bool → JsVal
  | num : JSNum → JsVal
  | str : Chars → JsVal
  | arr : List Chars → JsVal
deriving DecidableEq

/-- The result object: keys in insertion order. -/
abbrev Obj := List (Chars × JsVal)

def lookupK (k : Chars) (o : Obj) : Option JsVal :=
  match o with
  | [] => none
  | p :: rest => if p.1 = k then some p.2 else lookupK k rest

/-- `results[key] = value`: overwrite in place, or append a new key. -/
def upsert (k : Chars) (v : JsVal) (o : Obj) : Obj :=
  match o with
  | [] => [(k, v)]
  | p :: rest => if p.1 = k then (k, v) :: rest else p :: upsert k v rest

def startsDash (a : Chars) : Bool :=
  match a with
  | c :: _ => c == '-'
  | [] => false

/-- `.replace(/^-{1,2}/, '')`: drop one or two leading dashes. -/
def stripDashes (a : Chars) : Chars :=
  match a with
  | c1 :: c2 :: r => if c1 = '-' then (if c2 = '-' then r else c2 :: r) else a
  | [c1] => if c1 = '-' then [] else a
  | [] => []

/-- `.replace(/=.+/, '')`: delete the first `=` that is followed by at
least one non-line-terminator character, together with the greedy run
of such characters after it. -/
def stripEq : Chars → Chars
  | [] => []
  | [c] => [c]
  | c :: c2 :: r =>
    if c = '=' ∧ !isLineTerm c2 then (c2 :: r).dropWhile (fun x => !isLineTerm x)
    else c :: stripEq (c2 :: r)

/-- The global camel-casing scan of the key computation: every dash
followed by a word character is replaced by that character
upper-cased (`t.substring(1).toUpperCase()`). -/
def camel : Chars → Chars
  | [] => []
  | [c] => [c]
  | c :: c2 :: r =>
    if c = '-' ∧ isWordChar c2 then c2.toUpper :: camel r
    else c :: camel (c2 :: r)

/-- The computed key of a dashed argument. -/
def keyOf (a : Chars) : Chars := camel (stripEq (stripDashes a))

/-- The `key` variable: dashed arguments get their derived name,
everything else goes under `'args'`. -/
def argKey (a : Chars) : Chars := if startsDash a then keyOf a else "args".data

/-- Split at the last `=` of the string, if any. -/
def splitLastEq (l : Chars) : Option (Chars × Chars) :=
  match l with
  | [] => none
  | c :: r =>
    match splitLastEq r with
    | some (a, b) => some (c :: a, b)
    | none => if c = '=' then some ([], r) else none

/-- Does `=false\b` match at this position (`\b`: the next character
is absent or not a word character)? -/
def matchFalseAt (l : Chars) : Bool :=
  match l with
  | '=' :: 'f' :: 'a' :: 'l' :: 's' :: 'e' :: r =>
    match r with
    | [] => true
    | c :: _ => !isWordChar c
  | _ => false

/-- Scan for `/^--.+=\bfalse\b/` after the two dashes: `n` counts the
characters already consumed by `.+` (all non-line-terminators). -/
def bfScan (n : Nat) : Chars → Bool
  | [] => false
  | c :: r => (n ≥ 1 && matchFalseAt (c :: r)) || (!isLineTerm c && bfScan (n + 1) r)

/-- `/^--.+=\bfalse\b/.test(arg)`. -/
def testBoolFalse (a : Chars) : Bool :=
  match a with
  | c1 :: c2 :: rest => c1 = '-' && c2 = '-' && bfScan 0 rest
  | _ => false

/-- `/^-\w$|^--[^=]+$/.test(arg)`. -/
def testBoolTrue (a : Chars) : Bool :=
  (match a with
   | [c1, c2] => c1 = '-' && isWordChar c2
   | _ => false) ||
  (match a with
   | c1 :: c2 :: rest => c1 = '-' && c2 = '-' && !rest.isEmpty && rest.all (fun c => c ≠ '=')
   | _ => false)

/-- `/^--.+=\d+$/.test(arg)`: a match exists exactly when the suffix
after the last `=` is a nonempty digit run reaching the end and the
(nonempty) part between the dashes and that `=` has no line
terminator. -/
def testNum (a : Chars) : Bool :=
  match a with
  | c1 :: c2 :: rest =>
    c1 = '-' && c2 = '-' &&
      (match splitLastEq rest with
       | some (b, d) =>
         !b.isEmpty && b.all (fun c => !isLineTerm c) && !d.isEmpty && d.all isDigitC
       | none => false)
  | _ => false

/-- `/^--.+=.+$/.test(arg)`: some `=` splits the part after the dashes
into two nonempty runs, the whole of which contains no line
terminator. -/
def testStr (a : Chars) : Bool :=
  match a with
  | c1 :: c2 :: rest =>
    c1 = '-' && c2 = '-' && rest.all (fun c => !isLineTerm c) &&
      (rest.drop 1).dropLast.contains '='
  | _ => false

/-- `arg.replace(/^--.+=/, '')`: if the greedy anchored match exists
(the last `=` preceded by a nonempty terminator-free run after the two
dashes), the suffix after that `=`; otherwise the argument unchanged. -/
def afterEq (a : Chars) : Chars :=
  match a with
  | c1 :: c2 :: rest =>
    if c1 = '-' ∧ c2 = '-' then
      match splitLastEq (rest.takeWhile (fun c => !isLineTerm c)) with
      | some (b, _) => if b.isEmpty then a else rest.drop (b.length + 1)
      | none => a
    else a
  | _ => a

/-- The `number` variable: `+arg.replace(/^--.+=/, '')` when the
number test passes, else `null`. -/
def numberOf (a : Chars) : Option JSNum :=
  if testNum a then some (jsToNumber (afterEq a)) else none

/-- The `boolean` variable. -/
def booleanOf (a : Chars) : Option Bool :=
  if testBoolFalse a then some false
  else if testBoolTrue a then some true
  else none

/-- Truthiness of the `number` variable (`null`, `0` falsy). -/
def numTruthy (n : Option JSNum) : Bool :=
  match n with
  | none => false
  | some v => !jsNumFalsy v

/-- The `string` variable: guarded by `!number`. -/
def stringOf (a : Chars) : Option Chars :=
  if !numTruthy (numberOf a) && testStr a then some (afterEq a) else none

/-- The `withoutFlag` variable. -/
def withoutFlagOf (a : Chars) : Option Chars :=
  if startsDash a then none else some a

/-- `value = number ?? boolean ?? string ?? withoutFlag` (`??` skips
only `null`, so a parsed `0` wins). -/
def valueOf (a : Chars) : Option JsVal :=
  match numberOf a with
  | some n => some (.num n)
  | none =>
    match booleanOf a with
    | some b => some (.bool b)
    | none =>
      match stringOf a with
      | some s => some (.str s)
      | none =>
        match withoutFlagOf a with
        | some w => some (.str w)
        | none => none

/-- Truthiness of `withoutFlag` (`null` and `''` falsy). -/
def wfTruthy (w : Option Chars) : Bool :=
  match w with
  | none => false
  | some l => !l.isEmpty

/-- Processing of one argument in the loop body of `parseArgs`. -/
def stepArg (res : Obj) (a : Chars) : Obj :=
  let key := argKey a
  if key = "args".data ∧ wfTruthy (withoutFlagOf a) then
    match lookupK "args".data res with
    | some (.arr l) => upsert "args".data (.arr (l ++ [(withoutFlagOf a).getD []])) res
    | _ => upsert "args".data (.arr [(withoutFlagOf a).getD []]) res
  else
    match valueOf a with
    | some v => upsert key v res
    | none => res

/-- `parseArgs` on the argument list (`process.argv.slice(2)` is the
environment's input). -/
def parseArgs (argv : List Chars) : Obj := argv.foldl stepArg []

/-! ### Lemmas about the cursor-reply parsing -/

theorem hexDig_ne_lb {n : Nat} (h : n < 16) : hexDig n ≠ '[' := by
  interval_cases n <;> decide

theorem toNat_mod16_lt (n : Nat) : n % 16 < 16 := Nat.mod_lt _ (by norm_num)

theorem lb_not_in_hex4 {n : Nat} : '[' ∉ hex4 n := by
  simp only [hex4, List.mem_cons, List.not_mem_nil, or_false]
  push_neg
  refine ⟨?_, ?_, ?_, ?_⟩ <;>
    exact fun h => hexDig_ne_lb (toNat_mod16_lt _) h.symm

theorem lb_in_escapeChar {c : Char} (h : '[' ∈ escapeChar c) : c = '[' := by
  unfold escapeChar at h
  split at h
  · simp at h
  · split at h
    · simp at h
    · split at h
      · simp at h
      · split at h
        · simp at h
        · split at h
          · simp at h
          · split at h
            · simp at h
            · split at h
              · simp at h
              · split at h
                · simp only [List.mem_cons] at h
                  rcases h with h | h | h
                  · exact absurd h.symm (by decide)
                  · exact absurd h.symm (by decide)
                  · exact absurd h lb_not_in_hex4
                · simp at h
                  exact h.symm

theorem lb_not_in_escAll {s : Chars} (h : '[' ∉ s) : '[' ∉ escAll s := by
  induction s with
  | nil => simp [escAll]
  | cons c r ih =>
    simp only [List.mem_cons, not_or] at h
    simp only [escAll, List.foldr_cons, List.mem_append]
    push_neg
    refine ⟨fun hc => h.1 (lb_in_escapeChar hc).symm, ih h.2⟩

theorem fromBracket_of_not_mem {l : Chars} (h : '[' ∉ l) : fromBracket l = none := by
  induction l with
  | nil => rfl
  | cons c r ih =>
    simp only [List.mem_cons, not_or] at h
    have hc : ¬(c = '[') := fun hc => h.1 hc.symm
    simp only [fromBracket, if_neg hc]
    exact ih h.2

theorem fromBracket_found {pre rest : Chars} (h : ∀ x ∈ pre, x ≠ '[') :
    fromBracket (pre ++ '[' :: rest) = some ('[' :: rest.takeWhile (fun x => !isLineTerm x)) := by
  induction pre with
  | nil => simp [fromBracket]
  | cons c p ih =>
    simp only [List.cons_append, fromBracket, if_neg (h c (by simp))]
    exact ih (fun x hx => h x (by simp [hx]))

theorem escAll_base (xs : Chars) (b : Chars) :
    xs.foldr (fun c acc => escapeChar c ++ acc) b = escAll xs ++ b := by
  induction xs with
  | nil => simp [escAll]
  | cons c r ih => simp [escAll, ih, List.append_assoc]

theorem escAll_cons (c : Char) (r : Chars) : escAll (c :: r) = escapeChar c ++ escAll r := rfl

theorem escAll_append (xs ys : Chars) : escAll (xs ++ ys) = escAll xs ++ escAll ys := by
  simp only [escAll, List.foldr_append]
  exact escAll_base xs _

theorem escapeChar_plain {c : Char} (h1 : 32 ≤ c.toNat) (h2 : c ≠ '"') (h3 : c ≠ '\\')
    (h4 : c.toNat ≠ 8232) (h5 : c.toNat ≠ 8233) : escapeChar c = [c] := by
  unfold escapeChar
  rw [if_neg h2, if_neg h3, if_neg (by omega), if_neg (by omega), if_neg (by omega),
    if_neg (by omega), if_neg (by omega), if_neg (by push_neg; exact ⟨by omega, h4, h5⟩)]

theorem isDigitC_toNat {c : Char} (h : isDigitC c = true) : 48 ≤ c.toNat ∧ c.toNat ≤ 57 := by
  simpa [isDigitC] using h

theorem digit_escapeChar {c : Char} (h : isDigitC c = true) : escapeChar c = [c] := by
  obtain ⟨h1, h2⟩ := isDigitC_toNat h
  refine escapeChar_plain (by omega) ?_ ?_ (by omega) (by omega) <;>
    exact fun he => by rw [he] at h1 h2; revert h1 h2; decide

theorem escAll_digits {r : Chars} (h : ∀ d ∈ r, isDigitC d = true) : escAll r = r := by
  induction r with
  | nil => rfl
  | cons c l ih =>
    rw [escAll_cons, digit_escapeChar (h c (by simp)), ih (fun d hd => h d (by simp [hd]))]
    rfl

theorem digit_not_lineTerm {c : Char} (h : isDigitC c = true) : isLineTerm c = false := by
  obtain ⟨h1, h2⟩ := isDigitC_toNat h
  simp [isLineTerm]
  omega

theorem digit_not_space {c : Char} (h : isDigitC c = true) : isJsSpace c = false := by
  obtain ⟨h1, h2⟩ := isDigitC_toNat h
  simp [isJsSpace]
  omega

theorem digit_ne {c d : Char} (hc : isDigitC c = true) (hd : isDigitC d = false) : c ≠ d := by
  intro h
  rw [h, hd] at hc
  exact Bool.false_ne_true hc

theorem removeBrackets_cons_lb (l : Chars) : removeBrackets ('[' :: l) = removeBrackets l := by
  cases l with
  | nil => rfl
  | cons c r => simp [removeBrackets]

theorem removeBrackets_plain {xs ys : Chars} (h : ∀ x ∈ xs, x ≠ '[' ∧ x ≠ 'R') :
    removeBrackets (xs ++ ys) = xs ++ removeBrackets ys := by
  induction xs with
  | nil => rfl
  | cons x p ih =>
    have hx := h x (by simp)
    rcases hp : p ++ ys with _ | ⟨c2, rest⟩
    · have hp' : p = [] ∧ ys = [] := by
        constructor
        · cases p with
          | nil => rfl
          | cons a b => simp at hp
        · cases ys with
          | nil => rfl
          | cons a b => rcases p with _ | _ <;> simp at hp
      rw [List.cons_append, hp, hp'.1, hp'.2]
      simp [removeBrackets, hx.1]
    · rw [List.cons_append, hp]
      show removeBrackets (x :: c2 :: rest) = _
      rw [removeBrackets]
      have hr : ¬(x = 'R' ∧ c2 = '"') := fun hc => hx.2 hc.1
      rw [if_neg hx.1, if_neg hr, ← hp, ih (fun a ha => h a (by simp [ha]))]
      simp

theorem splitSemi_append {xs ys : Chars} (h : ∀ x ∈ xs, x ≠ ';') :
    splitSemi (xs ++ ';' :: ys) = xs :: splitSemi ys := by
  induction xs with
  | nil => simp [splitSemi]
  | cons x p ih =>
    have hx : ¬(x = ';') := h x (by simp)
    simp only [List.cons_append, splitSemi, if_neg hx, List.append_eq]
    rw [ih (fun a ha => h a (by simp [ha]))]

theorem dropWhile_false {p : Char → Bool} {l : Chars} (h : ∀ x ∈ l, p x = false) :
    l.dropWhile p = l := by
  cases l with
  | nil => rfl
  | cons c r => simp [List.dropWhile_cons, h c (by simp)]

theorem trimJS_of_no_space {l : Chars} (h : ∀ x ∈ l, isJsSpace x = false) : trimJS l = l := by
  unfold trimJS
  rw [dropWhile_false h, dropWhile_false (fun x hx => h x (List.mem_reverse.mp hx)),
    List.reverse_reverse]

theorem jsToNumber_digits {ds : Chars} (hne : ds ≠ []) (hd : ∀ d ∈ ds, isDigitC d = true) :
    jsToNumber ds = .val (decVal ds) 0 := by
  have htr : trimJS ds = ds := trimJS_of_no_space (fun x hx => digit_not_space (hd x hx))
  have hnotI : ds ≠ "Infinity".data := by
    cases ds with
    | nil => exact absurd rfl hne
    | cons c r =>
      intro h
      have hc := hd c (by simp)
      have : c = 'I' := by
        have := List.head_eq_of_cons_eq h
        exact this
      rw [this] at hc
      exact absurd hc (by decide)
  have hnd : parseNonDec ds = none := by
    cases ds with
    | nil => rfl
    | cons c0 r =>
      cases r with
      | nil => rfl
      | cons c1 rest =>
        have h1 := hd c1 (by simp)
        by_cases h0 : c0 = '0'
        · have hx : ¬(c1 = 'x' ∨ c1 = 'X') :=
            not_or.mpr ⟨@digit_ne c1 'x' h1 (by decide), @digit_ne c1 'X' h1 (by decide)⟩
          have ho : ¬(c1 = 'o' ∨ c1 = 'O') :=
            not_or.mpr ⟨@digit_ne c1 'o' h1 (by decide), @digit_ne c1 'O' h1 (by decide)⟩
          have hb : ¬(c1 = 'b' ∨ c1 = 'B') :=
            not_or.mpr ⟨@digit_ne c1 'b' h1 (by decide), @digit_ne c1 'B' h1 (by decide)⟩
          simp only [parseNonDec, if_pos h0, if_neg hx, if_neg ho, if_neg hb]
        · simp only [parseNonDec, if_neg h0]
  have hsign : splitSign ds = (1, ds) := by
    cases ds with
    | nil => exact absurd rfl hne
    | cons c r =>
      have hc := hd c (by simp)
      simp only [splitSign, if_neg (@digit_ne c '+' hc (by decide)),
        if_neg (@digit_ne c '-' hc (by decide))]
  have hud : parseUDec ds = some (((decVal ds : Nat) : Int), (0 : Int)) := by
    unfold parseUDec
    rw [List.takeWhile_eq_self_iff.mpr hd, List.dropWhile_eq_nil_iff.mpr hd]
    simp only [if_neg hne]
    rfl
  unfold jsToNumber
  rw [htr]
  rw [if_neg (by simpa [List.isEmpty_iff] using hne), hnd, hsign]
  simp only [hsign]
  rw [if_neg hnotI, hud]
  simp

/-- A reply buffer containing no `[` parses to row 0: the regular
expression finds no match, `xy` is undefined, and `+'0'` is 0. -/
theorem escAll_nil : escAll [] = [] := rfl

theorem captureRow_noBracket {b : Chars} (h : '[' ∉ b) : captureRow (some b) = .val 0 0 := by
  have h1 : '[' ∉ jsonStringify b := by
    simp only [jsonStringify, List.mem_cons, List.mem_append, not_or]
    exact ⟨by decide, lb_not_in_escAll h, by simp⟩
  show jsToNumber (rowStr (cursorXY (jsonStringify b))) = JSNum.val 0 0
  unfold cursorXY
  rw [fromBracket_of_not_mem h1]
  decide

/-- A well-formed reply `ESC [ r ; c R` with digit runs `r` and `c`
parses to the decimal value of `r`. -/
theorem captureRow_wellformed {r c : Chars} (hr : r ≠ []) (hrd : ∀ d ∈ r, isDigitC d = true)
    (hcd : ∀ d ∈ c, isDigitC d = true) :
    captureRow (some (Char.ofNat 27 :: '[' :: (r ++ ';' :: (c ++ ['R'])))) =
      .val (decVal r) 0 := by
  have e1 : escAll (Char.ofNat 27 :: '[' :: (r ++ ';' :: (c ++ ['R']))) =
      '\\' :: 'u' :: '0' :: '0' :: '1' :: 'b' :: '[' :: (r ++ ';' :: (c ++ ['R'])) := by
    simp only [escAll_cons, escAll_append, escAll_digits hrd, escAll_digits hcd, escAll_nil,
      show escapeChar (Char.ofNat 27) = ['\\', 'u', '0', '0', '1', 'b'] from by decide,
      show escapeChar '[' = ['['] from by decide,
      show escapeChar ';' = [';'] from by decide,
      show escapeChar 'R' = ['R'] from by decide]
    simp
  have hstr : jsonStringify (Char.ofNat 27 :: '[' :: (r ++ ';' :: (c ++ ['R']))) =
      ['"', '\\', 'u', '0', '0', '1', 'b'] ++ '[' :: (r ++ ';' :: (c ++ ['R', '"'])) := by
    simp only [jsonStringify, e1]
    simp
  have hnt : ∀ x ∈ (r ++ ';' :: (c ++ ['R', '"'])), (!isLineTerm x) = true := by
    intro x hx
    simp only [List.mem_append, List.mem_cons] at hx
    rcases hx with hx | hx | hx
    · simp [digit_not_lineTerm (hrd x hx)]
    · rw [hx]; decide
    · simp only [List.mem_append, List.mem_cons, List.not_mem_nil, or_false] at hx
      rcases hx with hx | hx | hx
      · simp [digit_not_lineTerm (hcd x hx)]
      · rw [hx]; decide
      · rw [hx]; decide
  have hplain : ∀ x ∈ (r ++ ';' :: c), x ≠ '[' ∧ x ≠ 'R' := by
    intro x hx
    simp only [List.mem_append, List.mem_cons] at hx
    rcases hx with hx | hx | hx
    · exact ⟨@digit_ne x '[' (hrd x hx) (by decide), @digit_ne x 'R' (hrd x hx) (by decide)⟩
    · rw [hx]; exact ⟨by decide, by decide⟩
    · exact ⟨@digit_ne x '[' (hcd x hx) (by decide), @digit_ne x 'R' (hcd x hx) (by decide)⟩
  have hre : removeBrackets ('[' :: (r ++ ';' :: (c ++ ['R', '"']))) = r ++ ';' :: c := by
    rw [removeBrackets_cons_lb,
      show (r ++ ';' :: (c ++ ['R', '"']) : Chars) = (r ++ ';' :: c) ++ ['R', '"'] from by simp,
      removeBrackets_plain hplain,
      show removeBrackets ['R', '"'] = [] from by decide, List.append_nil]
  have hsplit : splitSemi (r ++ ';' :: c) = r :: splitSemi c :=
    splitSemi_append (fun x hx => @digit_ne x ';' (hrd x hx) (by decide))
  have hxy : cursorXY (jsonStringify (Char.ofNat 27 :: '[' :: (r ++ ';' :: (c ++ ['R'])))) =
      some (r :: splitSemi c) := by
    unfold cursorXY
    rw [hstr, fromBracket_found (by decide : ∀ x ∈ ['"', '\\', 'u', '0', '0', '1', 'b'], x ≠ '['),
      List.takeWhile_eq_self_iff.mpr hnt]
    simp only [Option.map]
    rw [hre, hsplit]
  show jsToNumber (rowStr (cursorXY (jsonStringify _))) = _
  rw [hxy]
  simp only [rowStr, if_neg hr]
  exact jsToNumber_digits hr hrd

/-! ### Lemmas about the spinner state machine -/

theorem mkProgress_def (msg : Chars) (t : Nat) :
    mkProgress msg t =
      { rowNumber := none, id := none, timers := [], pending := [msg],
        sleeps := if t ≠ 0 then 1 else 0, nextT := 0,
        out := [.write ['\n'], .write [Char.ofNat 27, '[', '6', 'n']] } := by
  unfold mkProgress doStartSync doStop initSt
  simp

theorem runEvs_nil (s : SpinSt) : runEvs [] s = s := rfl

theorem runEvs_cons (e : Ev) (evs : List Ev) (s : SpinSt) :
    runEvs (e :: evs) s = runEvs evs (stepEv e s) := rfl

theorem doStop_id_none {s : SpinSt} (h : s.id = none) : doStop s = s := by
  unfold doStop
  rw [h]

/-- When every armed timer carries the handle stored in `id`,
`stop` cancels them all. -/
theorem doStop_parts {s : SpinSt} (h : ∀ t ∈ s.timers, s.id = some t.tid) :
    (doStop s).timers = [] ∧ (doStop s).pending = s.pending ∧ (doStop s).id = s.id ∧
      (doStop s).sleeps = s.sleeps ∧ (doStop s).nextT = s.nextT ∧
      (doStop s).rowNumber = s.rowNumber := by
  cases hid : s.id with
  | none =>
    have ht : s.timers = [] := by
      cases htm : s.timers with
      | nil => rfl
      | cons a l =>
        have := h a (by rw [htm]; simp)
        rw [hid] at this
        exact absurd this (by simp)
    unfold doStop
    rw [hid]
    simp [ht, hid]
  | some tid =>
    have hfil : s.timers.filter (fun t => !(t.tid == tid)) = [] :=
      List.filter_eq_nil_iff.mpr (fun a ha => by
        have := h a ha
        rw [hid] at this
        simp only [Option.some.injEq] at this
        simp [this])
    unfold doStop
    rw [hid]
    simp [hfil]

/-- A quiescent session (no pending handler, no armed timer, no pending
sleep) is unmoved by any autonomous event. -/
theorem step_autonomous_id {s : SpinSt} {e : Ev} (hp : s.pending = []) (ht : s.timers = [])
    (hs : s.sleeps = 0) (ha : autonomousEv e = true) : stepEv e s = s := by
  cases e with
  | readable b => simp [stepEv, doReadable, hp]
  | tick tid => simp [stepEv, doTick, ht]
  | sleepFire => simp [stepEv, doSleepFire, hs]
  | start m t => exact absurd ha (by simp [autonomousEv])
  | stop => exact absurd ha (by simp [autonomousEv])
  | succ m => exact absurd ha (by simp [autonomousEv])
  | err m => exact absurd ha (by simp [autonomousEv])
  | log m => exact absurd ha (by simp [autonomousEv])

theorem runEvs_quiescent {s : SpinSt} (hp : s.pending = []) (ht : s.timers = [])
    (hs : s.sleeps = 0) :
    ∀ evs : List Ev, (∀ e ∈ evs, autonomousEv e = true) → runEvs evs s = s := by
  intro evs hall
  induction evs with
  | nil => rfl
  | cons e rest ih =>
    rw [runEvs_cons, step_autonomous_id hp ht hs (hall e (by simp))]
    exact ih (fun x hx => hall x (by simp [hx]))

/-- The per-session invariant behind the "at most one active timer"
claim: at most one pending handler, at most one armed timer, every
armed timer holds the handle stored in `id`, and a pending handler
excludes an armed timer. -/
def Inv (s : SpinSt) : Prop :=
  s.pending.length ≤ 1 ∧ s.timers.length ≤ 1 ∧ (∀ t ∈ s.timers, s.id = some t.tid) ∧
    (s.pending = [] ∨ s.timers = [])

theorem inv_mkProgress (msg : Chars) (t : Nat) : Inv (mkProgress msg t) := by
  rw [mkProgress_def]
  exact ⟨by simp, by simp, by simp, Or.inr rfl⟩

theorem inv_step {s : SpinSt} {e : Ev} (h : Inv s) (hok : okEv s e = true) :
    Inv (stepEv e s) := by
  obtain ⟨hp1, ht1, hpt, hdisj⟩ := h
  cases e with
  | start m t =>
    have hp : s.pending = [] := by simpa [okEv, List.isEmpty_iff] using hok
    obtain ⟨a1, a2, a3, a4, a5, a6⟩ := doStop_parts hpt
    show Inv (doStartSync m t s)
    unfold doStartSync
    refine ⟨by simp [a2, hp], by simp [a1], by simp [a1], Or.inr (by simp [a1])⟩
  | stop =>
    obtain ⟨a1, a2, a3, a4, a5, a6⟩ := doStop_parts hpt
    show Inv (doStop s)
    exact ⟨by simp [a2, hp1], by simp [a1], by simp [a1], Or.inr a1⟩
  | succ m =>
    obtain ⟨a1, a2, a3, a4, a5, a6⟩ := doStop_parts hpt
    show Inv (doSuccess m s)
    unfold doSuccess
    exact ⟨by simp [a2, hp1], by simp [a1], by simp [a1], Or.inr (by simp [a1])⟩
  | err m =>
    obtain ⟨a1, a2, a3, a4, a5, a6⟩ := doStop_parts hpt
    show Inv (doError m s)
    unfold doError
    exact ⟨by simp [a2, hp1], by simp [a1], by simp [a1], Or.inr (by simp [a1])⟩
  | log m =>
    obtain ⟨a1, a2, a3, a4, a5, a6⟩ := doStop_parts hpt
    show Inv (doLog m s)
    unfold doLog
    exact ⟨by simp [a2, hp1], by simp [a1], by simp [a1], Or.inr (by simp [a1])⟩
  | readable b =>
    show Inv (doReadable b s)
    unfold doReadable
    cases hpe : s.pending with
    | nil => exact ⟨by simp [hpe], ht1, hpt, Or.inl hpe⟩
    | cons m rest =>
      have hrest : rest = [] := by
        rw [hpe] at hp1
        simpa using hp1
      have htm : s.timers = [] := by
        rcases hdisj with hd | hd
        · rw [hpe] at hd; exact absurd hd (by simp)
        · exact hd
      subst hrest
      simp only [List.foldl_nil]
      unfold runHandler
      exact ⟨by simp, by simp [htm], by simp [htm], Or.inl (by simp)⟩
  | tick tid =>
    show Inv (doTick tid s)
    unfold doTick
    cases hf : s.timers.find? (fun t => t.tid == tid) with
    | none => exact ⟨hp1, ht1, hpt, hdisj⟩
    | some t =>
      refine ⟨by simp [hp1], by simp [ht1], ?_, ?_⟩
      · intro u hu
        simp only [List.mem_map] at hu
        obtain ⟨u0, hu0, hequ⟩ := hu
        have := hpt u0 hu0
        by_cases hc : u0.tid = tid
        · simp only [show (u0.tid == tid) = true from by simp [hc], if_pos] at hequ
          rw [← hequ]
          simpa [hc] using this
        · simp only [show (u0.tid == tid) = false from by simp [hc], Bool.false_eq_true,
            if_neg] at hequ
          rw [← hequ]
          simpa using this
      · rcases hdisj with hd | hd
        · exact Or.inl hd
        · exact Or.inr (by simp [hd])
  | sleepFire =>
    show Inv (doSleepFire s)
    unfold doSleepFire
    by_cases hz : s.sleeps ≠ 0
    · rw [if_pos hz]
      obtain ⟨a1, a2, a3, a4, a5, a6⟩ := doStop_parts
        (s := { s with sleeps := s.sleeps - 1 }) (by simpa using hpt)
      exact ⟨by simpa [a2] using hp1, by simp [a1], by simp [a1], Or.inr a1⟩
    · rw [if_neg hz]
      exact ⟨hp1, ht1, hpt, hdisj⟩

theorem inv_runEvs : ∀ (evs : List Ev) (s : SpinSt), Inv s → okRun s evs = true →
    Inv (runEvs evs s) := by
  intro evs
  induction evs with
  | nil => exact fun s h _ => h
  | cons e rest ih =>
    intro s h hok
    rw [okRun, Bool.and_eq_true] at hok
    rw [runEvs_cons]
    exact ih _ (inv_step h hok.1) hok.2

theorem readable_mkProgress (buf : Option Chars) (msg : Chars) (t : Nat) :
    stepEv (.readable buf) (mkProgress msg t) =
      { rowNumber := some (captureRow buf), id := some 0,
        timers := [{ tid := 0, i := 0, msg := msg }], pending := [],
        sleeps := if t ≠ 0 then 1 else 0, nextT := 1,
        out := [.write ['\n'], .write [Char.ofNat 27, '[', '6', 'n']] } := by
  rw [show stepEv (.readable buf) (mkProgress msg t) = doReadable buf (mkProgress msg t) from rfl,
    mkProgress_def]
  unfold doReadable
  simp only [List.foldl_nil]
  unfold runHandler
  rfl

/-- After `n` firings of the first armed interval, its closure counter
is exactly `n` and the shared state is otherwise unmoved. -/
theorem ticks_parts (msg : Chars) (buf : Option Chars) (n : Nat) :
    (ticks n (stepEv (.readable buf) (mkProgress msg 0))).timers =
        [{ tid := 0, i := n, msg := msg }] ∧
      (ticks n (stepEv (.readable buf) (mkProgress msg 0))).rowNumber =
        some (captureRow buf) := by
  induction n with
  | zero => rw [ticks, readable_mkProgress]; exact ⟨rfl, rfl⟩
  | succ k ih =>
    rw [ticks, show stepEv (.tick 0) (ticks k (stepEv (.readable buf) (mkProgress msg 0))) =
      doTick 0 (ticks k (stepEv (.readable buf) (mkProgress msg 0))) from rfl]
    unfold doTick
    rw [ih.1]
    simp [ih.2]

/-- The output appended by one firing of timer 0 when its counter
stands at `n`. -/
theorem tick_out {s : SpinSt} {n : Nat} {msg : Chars}
    (h : s.timers = [{ tid := 0, i := n, msg := msg }]) :
    (stepEv (.tick 0) s).out = s.out ++ [.cursorTo s.rowNumber, .clearLine,
      .write (chalkCyan (frames.getD (n % frames.length) []) ++ ' ' :: chalkYellow msg)] := by
  show (doTick 0 s).out = _
  unfold doTick
  rw [h]
  rfl

/-! ### Lemmas about the argument parser -/

theorem lookupK_upsert_self (k : Chars) (v : JsVal) (o : Obj) :
    lookupK k (upsert k v o) = some v := by
  induction o with
  | nil => simp [lookupK, upsert]
  | cons p rest ih =>
    by_cases h : p.1 = k
    · simp [lookupK, upsert, h]
    · simp [lookupK, upsert, h, ih]

theorem lookupK_upsert_ne {k k' : Chars} (h : k' ≠ k) (v : JsVal) (o : Obj) :
    lookupK k (upsert k' v o) = lookupK k o := by
  induction o with
  | nil => simp [lookupK, upsert, h]
  | cons p rest ih =>
    by_cases hp : p.1 = k'
    · have hpk : ¬(p.1 = k) := by rw [hp]; exact h
      simp [lookupK, upsert, hp, hpk, h]
    · simp only [upsert, if_neg hp]
      by_cases hk2 : p.1 = k
      · simp [lookupK, hk2]
      · simp [lookupK, hk2, ih]

/-- A dashed argument whose derived key is not `'args'` leaves the
`args` entry untouched. -/
theorem stepArg_dashed {res : Obj} {a : Chars} (hd : startsDash a = true)
    (hk : keyOf a ≠ "args".data) :
    lookupK "args".data (stepArg res a) = lookupK "args".data res := by
  unfold stepArg
  have hkey : argKey a = keyOf a := by simp [argKey, hd]
  have hwf : withoutFlagOf a = none := by simp [withoutFlagOf, hd]
  rw [hkey, hwf]
  rw [if_neg (by simp [wfTruthy])]
  cases valueOf a with
  | none => rfl
  | some v => exact lookupK_upsert_ne hk v res

/-- Processing an argument that does not begin with a dash touches no
key other than `'args'`. -/
theorem stepArg_nondash_other {res : Obj} {a k : Chars} (hd : startsDash a = false)
    (hk : k ≠ "args".data) :
    lookupK k (stepArg res a) = lookupK k res := by
  unfold stepArg
  have hkey : argKey a = "args".data := by simp [argKey, hd]
  rw [hkey]
  have hne : "args".data ≠ k := Ne.symm hk
  by_cases hw : wfTruthy (withoutFlagOf a) = true
  · rw [if_pos ⟨rfl, hw⟩]
    cases lookupK "args".data res with
    | none => exact lookupK_upsert_ne hne _ res
    | some v =>
      cases v with
      | arr l => exact lookupK_upsert_ne hne _ res
      | bool b => exact lookupK_upsert_ne hne _ res
      | num n => exact lookupK_upsert_ne hne _ res
      | str st => exact lookupK_upsert_ne hne _ res
  · rw [if_neg (by simp [hw])]
    cases valueOf a with
    | none => rfl
    | some v => exact lookupK_upsert_ne hne v res

/-- The list currently stored under `args`, if it is an array. -/
def curList : Option JsVal → List Chars
  | some (.arr l) => l
  | _ => []

/-- A nonempty non-dash argument extends (or creates) the `args`
array. -/
theorem stepArg_nondash_args {res : Obj} {a : Chars} (hd : startsDash a = false)
    (hne : a ≠ []) :
    lookupK "args".data (stepArg res a) =
      some (.arr (curList (lookupK "args".data res) ++ [a])) := by
  unfold stepArg
  have hkey : argKey a = "args".data := by simp [argKey, hd]
  have hwf : withoutFlagOf a = some a := by simp [withoutFlagOf, hd]
  rw [hkey, hwf]
  rw [if_pos ⟨rfl, by simp [wfTruthy, List.isEmpty_iff, hne]⟩]
  cases hlk : lookupK "args".data res with
  | none => simp [hlk, lookupK_upsert_self, curList]
  | some v =>
    cases v with
    | arr l => simp [hlk, lookupK_upsert_self, curList]
    | bool b => simp [hlk, lookupK_upsert_self, curList]
    | num n => simp [hlk, lookupK_upsert_self, curList]
    | str st => simp [hlk, lookupK_upsert_self, curList]

/-- The value of the `args` entry after appending a run of plain
arguments to a given starting entry. -/
def argsAfter : Option JsVal → List Chars → Option JsVal
  | cur, [] => cur
  | cur, w :: ws => argsAfter (some (.arr (curList cur ++ [w]))) ws

theorem argsAfter_arr (l : List Chars) (ws : List Chars) :
    argsAfter (some (.arr l)) ws = some (.arr (l ++ ws)) := by
  induction ws generalizing l with
  | nil => simp [argsAfter]
  | cons w ws' ih => simp [argsAfter, curList, ih]

theorem argsAfter_none (ws : List Chars) :
    argsAfter none ws = if ws = [] then none else some (.arr ws) := by
  cases ws with
  | nil => rfl
  | cons w ws' => simp [argsAfter, curList, argsAfter_arr]

/-- Folding `stepArg` over arguments that are nonempty and whose
dashed members never derive the key `'args'` accumulates exactly the
non-dash arguments, in order, into the `args` entry. -/
theorem parse_fold (argv : List Chars) : ∀ res : Obj, (∀ a ∈ argv, a ≠ []) →
    (∀ a ∈ argv, startsDash a = true → keyOf a ≠ "args".data) →
    lookupK "args".data (argv.foldl stepArg res) =
      argsAfter (lookupK "args".data res) (argv.filter (fun a => !startsDash a)) := by
  induction argv with
  | nil => intro res _ _; rfl
  | cons a argv' ih =>
    intro res hne hkey
    rw [List.foldl_cons]
    cases hd : startsDash a with
    | true =>
      rw [List.filter_cons_of_neg (by simp [hd])]
      rw [ih (stepArg res a) (fun x hx => hne x (by simp [hx]))
        (fun x hx => hkey x (by simp [hx]))]
      rw [stepArg_dashed hd (hkey a (by simp) hd)]
    | false =>
      rw [List.filter_cons_of_pos (by simp [hd])]
      rw [ih (stepArg res a) (fun x hx => hne x (by simp [hx]))
        (fun x hx => hkey x (by simp [hx]))]
      rw [stepArg_nondash_args hd (hne a (by simp))]
      rw [argsAfter]

/-- An argument of shape `-xy` (one dash, not two, at least two
following characters) produces no entry at all. -/
theorem stepArg_dash_multi {res : Obj} {c : Char} {rest : Chars} (hc : c ≠ '-')
    (hrest : rest ≠ []) (heq : '=' ∉ ('-' :: c :: rest)) :
    stepArg res ('-' :: c :: rest) = res := by
  rcases rest with _ | ⟨d, t⟩
  · exact absurd rfl hrest
  · unfold stepArg
    have hwf : withoutFlagOf ('-' :: c :: d :: t) = none := by simp [withoutFlagOf, startsDash]
    rw [hwf]
    rw [if_neg (by simp [wfTruthy])]
    have hnum : numberOf ('-' :: c :: d :: t) = none := by
      simp [numberOf, testNum, hc]
    have hbool : booleanOf ('-' :: c :: d :: t) = none := by
      simp [booleanOf, testBoolFalse, testBoolTrue, hc]
    have hstr : stringOf ('-' :: c :: d :: t) = none := by
      simp [stringOf, testStr, hc]
    simp [valueOf, hnum, hbool, hstr, hwf]

/-- A session whose one pending handler fires arms a fresh interval,
and a firing of that interval grows the output trace. -/
theorem leak_of {msg : Chars} (buf : Option Chars) {s1 : SpinSt} (hp : s1.pending = [msg])
    (ht : s1.timers = []) (hn : s1.nextT = 0) :
    (stepEv (.readable buf) s1).timers = [{ tid := 0, i := 0, msg := msg }] ∧
      (stepEv (.tick 0) (stepEv (.readable buf) s1)).out ≠ (stepEv (.readable buf) s1).out := by
  have h2 : stepEv (.readable buf) s1 = runHandler msg buf { s1 with pending := [] } := by
    show doReadable buf s1 = _
    unfold doReadable
    rw [hp]
    rfl
  have ht1 : (stepEv (.readable buf) s1).timers = [{ tid := 0, i := 0, msg := msg }] := by
    rw [h2]
    unfold runHandler
    simp [ht, hn]
  refine ⟨ht1, ?_⟩
  rw [tick_out (n := 0) ht1]
  intro hcontra
  have := congrArg List.length hcontra
  simp at this

/-! ### The claims -/

/-- C1 counterexample: after a start, a consumed cursor reply, and a
first `stop`, no redraw timer is armed any more, yet a second `stop`
still changes the output stream (it moves the cursor and clears the
line again, because the `id` handle is never reset). -/
theorem c1_stop_idle_cex :
    (runEvs [.readable (some goodReply), .stop] (mkProgress ['m'] 0)).timers = [] ∧
      (stepEv .stop (runEvs [.readable (some goodReply), .stop] (mkProgress ['m'] 0))).out ≠
        (runEvs [.readable (some goodReply), .stop] (mkProgress ['m'] 0)).out := by
  decide

/-- C1 amended: `stop()` is a no-op (state and output unchanged, and
in particular no throw is modelled) exactly while the session has
never stored a timer handle - a fresh session before any cursor reply.
Once `id` has been assigned, every further `stop()` re-emits the
cursor move and the line clear even though no timer is armed. -/
theorem c1_stop_fresh_noop (s : SpinSt) (h : s.id = none) : stepEv .stop s = s :=
  doStop_id_none h

theorem c1_stop_fresh_noop_witness :
    stepEv .stop (mkProgress ['m'] 0) = mkProgress ['m'] 0 :=
  c1_stop_fresh_noop (mkProgress ['m'] 0) (by decide)

/-- C2: after `start`, a well-formed cursor-position reply
`ESC [ r ; c R` with nonempty decimal digit runs `r` and `c` sets the
session's captured row number to the decimal value of `r`. -/
theorem c2_captured_row (msg r c : Chars) (hr : r ≠ []) (_hc : c ≠ [])
    (hrd : ∀ d ∈ r, isDigitC d = true) (hcd : ∀ d ∈ c, isDigitC d = true) :
    (stepEv (.readable (some (Char.ofNat 27 :: '[' :: (r ++ ';' :: (c ++ ['R'])))))
        (mkProgress msg 0)).rowNumber = some (.val (decVal r) 0) := by
  rw [readable_mkProgress]
  simp [captureRow_wellformed hr hrd hcd]

theorem c2_captured_row_witness :
    (stepEv (.readable (some goodReply)) (mkProgress ['m'] 0)).rowNumber =
      some (.val 12 0) := by
  have h := c2_captured_row ['m'] ['1', '2'] ['1'] (by decide) (by decide) (by decide) (by decide)
  rw [show goodReply = Char.ofNat 27 :: '[' :: (['1', '2'] ++ ';' :: (['1'] ++ ['R'])) from rfl,
    h]
  decide

/-- C3 counterexample: the malformed reply `[zR` contains a `[`
followed by non-numeric text; the captured row is NaN, not 0. -/
theorem c3_malformed_cex :
    (stepEv (.readable (some ['[', 'z', 'R'])) (mkProgress ['m'] 0)).rowNumber =
        some JSNum.nan ∧ JSNum.nan ≠ JSNum.val 0 0 := by
  decide

/-- C3 amended: for every reply buffer that contains no `[` the
captured row defaults to 0; but a buffer with a `[` followed by
non-numeric text yields a NaN row instead of 0. -/
theorem c3_row_default (msg b : Chars) (h : '[' ∉ b) :
    (stepEv (.readable (some b)) (mkProgress msg 0)).rowNumber = some (.val 0 0) := by
  rw [readable_mkProgress]
  simp [captureRow_noBracket h]

theorem c3_row_default_witness :
    (stepEv (.readable (some ['z', 'z'])) (mkProgress ['m'] 0)).rowNumber =
      some (.val 0 0) :=
  c3_row_default ['m'] ['z', 'z'] (by decide)

/-- C7 counterexample: `log("raw")` emits exactly the three characters
`raw` after the stop, not four. -/
theorem c7_log_raw_cex :
    (doLog ['r', 'a', 'w'] initSt).out = (doStop initSt).out ++ [.write ['r', 'a', 'w']] ∧
      ([('r' : Char), 'a', 'w']).length = 3 ∧ (3 : Nat) ≠ 4 := by
  decide

/-- C7 amended: for every message and session state, `log` behaves
exactly as `stop()` followed by one verbatim write of the message -
no indicator, no styling, no appended newline; `log("raw")` emits
exactly the three characters `raw` after the line handling of the
stop. -/
theorem c7_log_verbatim (m : Chars) (s : SpinSt) :
    doLog m s = { doStop s with out := (doStop s).out ++ [.write m] } ∧
      (doLog "raw".data s).out = (doStop s).out ++ [.write "raw".data] ∧
      "raw".data = ['r', 'a', 'w'] :=
  ⟨rfl, rfl, rfl⟩

/-- C8: the counter of the armed interval equals the number of ticks
fired so far (monotone increase), and the glyph written by the tick
with counter value `n` is `frames[n % frames.length]` - the fixed
table entry at index `n` modulo the glyph count. -/
theorem c8_frame_cycle (msg : Chars) (buf : Option Chars) (n : Nat) :
    (ticks n (stepEv (.readable buf) (mkProgress msg 0))).timers =
        [{ tid := 0, i := n, msg := msg }] ∧
      (stepEv (.tick 0) (ticks n (stepEv (.readable buf) (mkProgress msg 0)))).out =
        (ticks n (stepEv (.readable buf) (mkProgress msg 0))).out ++
          [.cursorTo (ticks n (stepEv (.readable buf) (mkProgress msg 0))).rowNumber,
           .clearLine,
           .write (chalkCyan (frames.getD (n % frames.length) []) ++ ' ' :: chalkYellow msg)] :=
  ⟨(ticks_parts msg buf n).1, tick_out (ticks_parts msg buf n).1⟩

/-- C9: a terminating call (`stop`, `success`, `error`, `log`) issued
while the cursor reply is still pending does not cancel the one-shot
readable subscription: the handler stays registered, and when the
reply later arrives the interval is armed and a subsequent tick writes
a frame - the spinner starts animating after the terminating call. -/
theorem c9_pending_survives (msg m : Chars) (buf : Option Chars) :
    ((stepEv .stop (mkProgress msg 0)).pending = [msg] ∧
      (stepEv (.readable buf) (stepEv .stop (mkProgress msg 0))).timers =
        [{ tid := 0, i := 0, msg := msg }] ∧
      (stepEv (.tick 0) (stepEv (.readable buf) (stepEv .stop (mkProgress msg 0)))).out ≠
        (stepEv (.readable buf) (stepEv .stop (mkProgress msg 0))).out) ∧
    ((stepEv (.succ m) (mkProgress msg 0)).pending = [msg] ∧
      (stepEv (.readable buf) (stepEv (.succ m) (mkProgress msg 0))).timers =
        [{ tid := 0, i := 0, msg := msg }] ∧
      (stepEv (.tick 0) (stepEv (.readable buf) (stepEv (.succ m) (mkProgress msg 0)))).out ≠
        (stepEv (.readable buf) (stepEv (.succ m) (mkProgress msg 0))).out) ∧
    ((stepEv (.err m) (mkProgress msg 0)).pending = [msg] ∧
      (stepEv (.readable buf) (stepEv (.err m) (mkProgress msg 0))).timers =
        [{ tid := 0, i := 0, msg := msg }] ∧
      (stepEv (.tick 0) (stepEv (.readable buf) (stepEv (.err m) (mkProgress msg 0)))).out ≠
        (stepEv (.readable buf) (stepEv (.err m) (mkProgress msg 0))).out) ∧
    ((stepEv (.log m) (mkProgress msg 0)).pending = [msg] ∧
      (stepEv (.readable buf) (stepEv (.log m) (mkProgress msg 0))).timers =
        [{ tid := 0, i := 0, msg := msg }] ∧
      (stepEv (.tick 0) (stepEv (.readable buf) (stepEv (.log m) (mkProgress msg 0)))).out ≠
        (stepEv (.readable buf) (stepEv (.log m) (mkProgress msg 0))).out) := by
  have hub : (mkProgress msg 0).id = none := by rw [mkProgress_def]
  have hstop : doStop (mkProgress msg 0) = mkProgress msg 0 := doStop_id_none hub
  have hmk : (mkProgress msg 0).pending = [msg] := by rw [mkProgress_def]
  have hmt : (mkProgress msg 0).timers = [] := by rw [mkProgress_def]
  have hmn : (mkProgress msg 0).nextT = 0 := by rw [mkProgress_def]
  have estop : stepEv .stop (mkProgress msg 0) = mkProgress msg 0 := hstop
  have esucc : stepEv (.succ m) (mkProgress msg 0) =
      { mkProgress msg 0 with out := (mkProgress msg 0).out ++
          [.write (chalkGreen ("✅ ".data ++ m) ++ ['\n'])] } := by
    show doSuccess m _ = _
    unfold doSuccess
    rw [hstop]
  have eerr : stepEv (.err m) (mkProgress msg 0) =
      { mkProgress msg 0 with out := (mkProgress msg 0).out ++
          [.write (chalkRed ("⛔ ".data ++ m) ++ ['\n'])] } := by
    show doError m _ = _
    unfold doError
    rw [hstop]
  have elog : stepEv (.log m) (mkProgress msg 0) =
      { mkProgress msg 0 with out := (mkProgress msg 0).out ++ [.write m] } := by
    show doLog m _ = _
    unfold doLog
    rw [hstop]
  refine ⟨⟨?_, ?_⟩, ⟨?_, ?_⟩, ⟨?_, ?_⟩, ⟨?_, ?_⟩⟩
  · rw [estop]; exact hmk
  · exact leak_of buf (by rw [estop]; exact hmk) (by rw [estop]; exact hmt)
      (by rw [estop]; exact hmn)
  · rw [esucc]; simpa using hmk
  · exact leak_of buf (by rw [esucc]; simpa using hmk) (by rw [esucc]; simpa using hmt)
      (by rw [esucc]; simpa using hmn)
  · rw [eerr]; simpa using hmk
  · exact leak_of buf (by rw [eerr]; simpa using hmk) (by rw [eerr]; simpa using hmt)
      (by rw [eerr]; simpa using hmn)
  · rw [elog]; simpa using hmk
  · exact leak_of buf (by rw [elog]; simpa using hmk) (by rw [elog]; simpa using hmt)
      (by rw [elog]; simpa using hmn)

/-- C4 counterexample: with `start("Loading...", 500)` whose cursor
reply has not arrived when the timeout expires, the expiry changes
nothing (no line clear at all), and once the reply arrives afterwards
the interval starts ticking - a redraw occurs after the auto-stop. -/
theorem c4_autostop_cex :
    (stepEv .sleepFire (mkProgress "Loading...".data 500)).out =
        (mkProgress "Loading...".data 500).out ∧
      (stepEv (.tick 0) (runEvs [.sleepFire, .readable (some goodReply)]
          (mkProgress "Loading...".data 500))).out ≠
        (runEvs [.sleepFire, .readable (some goodReply)]
          (mkProgress "Loading...".data 500)).out := by
  decide

/-- C4 amended: when the auto-stop sleep expires after the cursor
reply was consumed - one armed timer owned by the stored handle, no
pending handler, exactly the one pending sleep - the expiry cancels
the timer and clears the spinner line exactly once, and no autonomous
event (tick, input arrival, further expiry) can change the session
afterwards; if instead the reply is still pending at expiry, the stop
is a no-op and the animation starts and keeps ticking afterwards. -/
theorem c4_autostop (st : SpinSt) (tm : Timer) (hp : st.pending = [])
    (hs : st.sleeps = 1) (hid : st.id = some tm.tid) (ht : st.timers = [tm]) :
    (stepEv .sleepFire st).out = st.out ++ [.cursorTo st.rowNumber, .clearLine] ∧
      (stepEv .sleepFire st).timers = [] ∧
      ∀ evs : List Ev, (∀ e ∈ evs, autonomousEv e = true) →
        runEvs evs (stepEv .sleepFire st) = stepEv .sleepFire st := by
  have h2 : stepEv .sleepFire st =
      { st with sleeps := 0, timers := [],
                out := st.out ++ [.cursorTo st.rowNumber, .clearLine] } := by
    show doSleepFire st = _
    unfold doSleepFire
    rw [hs]
    simp only [ne_eq, one_ne_zero, not_false_eq_true, if_pos]
    unfold doStop
    simp [hid, ht]
  refine ⟨by rw [h2], by rw [h2], fun evs ha => ?_⟩
  rw [h2]
  exact runEvs_quiescent (by simp [hp]) (by simp) (by simp) evs ha

theorem c4_autostop_witness :
    (stepEv .sleepFire (stepEv (.readable (some goodReply))
        (mkProgress "Loading...".data 500))).timers = [] ∧
      runEvs [.tick 0, .readable none, .sleepFire]
          (stepEv .sleepFire (stepEv (.readable (some goodReply))
            (mkProgress "Loading...".data 500))) =
        stepEv .sleepFire (stepEv (.readable (some goodReply))
          (mkProgress "Loading...".data 500)) :=
  ⟨(c4_autostop _ { tid := 0, i := 0, msg := "Loading...".data }
      (by decide) (by decide) (by decide) (by decide)).2.1,
   (c4_autostop _ { tid := 0, i := 0, msg := "Loading...".data }
      (by decide) (by decide) (by decide) (by decide)).2.2 _ (by decide)⟩

/-- C5 counterexample: a second `start` issued while the first cursor
reply is still pending leaves both one-shot handlers registered; when
input arrives both fire and two intervals are armed at once - the
first is never cancelled. -/
theorem c5_overlap_cex :
    (runEvs [.start ['b'] 0, .readable (some goodReply)] (mkProgress ['a'] 0)).timers.length =
      2 := by
  decide

/-- C5 amended: provided no `start` is issued while a cursor reply is
pending (non-overlapping starts), at most one redraw timer is armed at
any instant along any schedule of calls, replies, ticks, and expiries;
with overlapping starts the bound fails (see the counterexample). -/
theorem c5_single_timer (msg : Chars) (t : Nat) (evs : List Ev)
    (hok : okRun (mkProgress msg t) evs = true) :
    (runEvs evs (mkProgress msg t)).timers.length ≤ 1 :=
  (inv_runEvs evs _ (inv_mkProgress msg t) hok).2.1

theorem c5_single_timer_witness :
    (runEvs [.readable (some goodReply), .start ['b'] 0, .readable none, .tick 1, .stop]
        (mkProgress ['a'] 0)).timers.length ≤ 1 :=
  c5_single_timer ['a'] 0 _ (by decide)

/-- C6 counterexample: `success("done")` issued while the cursor reply
is pending is followed - after the reply arrives and the interval
fires - by a spinner frame in the output stream, so glyph-cycle frames
do appear after the success output. -/
theorem c6_success_frames_cex :
    (runEvs [.succ "done".data, .readable (some goodReply), .tick 0]
        (mkProgress ['m'] 0)).out =
      (stepEv (.succ "done".data) (mkProgress ['m'] 0)).out ++
        [.cursorTo (some (.val 12 0)), .clearLine,
         .write (chalkCyan ['⠋'] ++ ' ' :: chalkYellow ['m'])] := by
  decide

/-- C6 amended: `success(m)` (resp. `error(m)`) is exactly `stop()`
followed by one write of the green check-prefixed (resp. red
stop-sign-prefixed) message terminated by a newline; and provided no
cursor reply and no auto-stop sleep are pending and every armed timer
is owned by the stored handle, no autonomous event can change the
session after the success output, so no further glyph-cycle frame is
written. When a cursor reply is still pending the guarantee fails
(see the counterexample). -/
theorem c6_success_error (m : Chars) (s : SpinSt) :
    doSuccess m s =
        { doStop s with out := (doStop s).out ++
            [.write (chalkGreen ("✅ ".data ++ m) ++ ['\n'])] } ∧
      doError m s =
        { doStop s with out := (doStop s).out ++
            [.write (chalkRed ("⛔ ".data ++ m) ++ ['\n'])] } ∧
      (s.pending = [] → s.sleeps = 0 → (∀ t ∈ s.timers, s.id = some t.tid) →
        ∀ evs : List Ev, (∀ e ∈ evs, autonomousEv e = true) →
          runEvs evs (doSuccess m s) = doSuccess m s) := by
  refine ⟨rfl, rfl, fun hp hs hpt evs ha => ?_⟩
  have parts := doStop_parts hpt
  exact runEvs_quiescent (by simp [doSuccess, parts.2.1, hp])
    (by simp [doSuccess, parts.1]) (by simp [doSuccess, parts.2.2.2.1, hs]) evs ha

theorem c6_success_error_witness :
    runEvs [.tick 0, .readable none, .sleepFire]
        (doSuccess "done".data (stepEv (.readable (some goodReply)) (mkProgress ['m'] 0))) =
      doSuccess "done".data (stepEv (.readable (some goodReply)) (mkProgress ['m'] 0)) :=
  (c6_success_error "done".data _).2.2 (by decide) (by decide) (by decide) _ (by decide)

/-- C10 counterexample: an empty-string argument does not begin with a
dash, yet it is not appended to the `args` array - it overwrites the
entry with the string `''`, so `parseArgs ["a", ""]` does not collect
the non-dash arguments into an array. -/
theorem c10_empty_arg_cex :
    parseArgs [['a'], []] = [("args".data, .str [])] ∧
      JsVal.str [] ≠ JsVal.arr [['a'], []] := by
  decide

/-- C10 amended: for argument lists whose members are all nonempty and
whose dashed members never derive the key `args`, `parseArgs` collects
exactly the non-dash arguments, in command-line order, into the
`args` array (absent when there are none); an argument that does not
begin with a dash never changes any other key; and an argument of the
form `-xy` (one dash, not two, at least two further characters, no
`=`) produces no change to the result at all. -/
theorem c10_args_collection :
    (∀ argv : List Chars, (∀ a ∈ argv, a ≠ []) →
      (∀ a ∈ argv, startsDash a = true → keyOf a ≠ "args".data) →
      lookupK "args".data (parseArgs argv) =
        (if argv.filter (fun a => !startsDash a) = [] then none
         else some (.arr (argv.filter (fun a => !startsDash a))))) ∧
    (∀ (res : Obj) (a k : Chars), startsDash a = false → k ≠ "args".data →
      lookupK k (stepArg res a) = lookupK k res) ∧
    (∀ (res : Obj) (c : Char) (rest : Chars), c ≠ '-' → rest ≠ [] →
      '=' ∉ ('-' :: c :: rest) → stepArg res ('-' :: c :: rest) = res) := by
  refine ⟨fun argv h1 h2 => ?_, fun res a k hd hk => stepArg_nondash_other hd hk,
    fun res c rest hc hr he => stepArg_dash_multi hc hr he⟩
  rw [parseArgs, parse_fold argv [] h1 h2]
  rw [show lookupK "args".data ([] : Obj) = none from rfl, argsAfter_none]

theorem c10_args_collection_witness :
    lookupK "args".data (parseArgs [['a'], "--name=John".data, ['b'], "-xy".data]) =
      some (.arr [['a'], ['b']]) := by
  have h := c10_args_collection.1 [['a'], "--name=John".data, ['b'], "-xy".data]
    (by decide) (by decide)
  rw [h]
  decide

end Cli
